import Mathlib

/-
Shallow embedding of `src/f06csvdiff/src/main.rs` (the f06csvdiff CSV
comparison tool).  Rust `f64` values are modelled by the type `F64`
below: finite values are carried exactly as rationals, and the IEEE-754
special values (the two infinities and NaN, which the program can
produce via overflowing literals such as `1e999` and via `inf - inf`)
are explicit constructors.  All comparisons follow IEEE semantics: every
comparison involving NaN is false.
-/

namespace NasTools

/-- Model of a Rust `f64` value: NaN, a signed infinity (`true` is the
positive one), or an exact finite value.  Finite arithmetic is carried
over `ℚ`; the claims under study only depend on comparisons, signs and
the special-value rules, not on rounding. -/
inductive F64 where
  | nan : F64
  | inf : Bool → F64
  | fin : ℚ → F64
deriving DecidableEq

namespace F64

/-- Is the value NaN. -/
def isNan : F64 → Bool
  | nan => true
  | _ => false

/-- Rust `v == 0.0` (IEEE equality with zero; NaN and infinities are
never equal to zero, and `-0.0` is represented as `fin 0`). -/
def isZero : F64 → Bool
  | fin q => q == 0
  | _ => false

/-- Rust `f64::abs`. -/
def fabs : F64 → F64
  | nan => nan
  | inf _ => inf true
  | fin q => fin (if q < 0 then -q else q)

/-- Rust `a - b` on `f64`: NaN propagates, `inf - inf` of equal signs is
NaN, infinities dominate finite values. -/
def fsub : F64 → F64 → F64
  | nan, _ => nan
  | _, nan => nan
  | inf s, inf t => if s == t then nan else inf s
  | inf s, fin _ => inf s
  | fin _, inf s => inf (!s)
  | fin a, fin b => fin (a - b)

/-- Rust `a < b` on `f64`: false whenever either side is NaN. -/
def flt : F64 → F64 → Bool
  | nan, _ => false
  | _, nan => false
  | inf s, inf t => !s && t
  | inf s, fin _ => !s
  | fin _, inf t => t
  | fin a, fin b => decide (a < b)

/-- Rust `a <= b` on `f64`: false whenever either side is NaN. -/
def fle (a b : F64) : Bool := !a.isNan && !b.isNan && !flt b a

/-- Rust `f64::max` (NaN-ignoring maximum). -/
def fmax (a b : F64) : F64 :=
  if a.isNan then b else if b.isNan then a else if flt a b then b else a

/-- Rust `f64::min` (NaN-ignoring minimum). -/
def fmin (a b : F64) : F64 :=
  if a.isNan then b else if b.isNan then a else if flt b a then b else a

/-- Rust `a / b` on `f64`: `inf/inf` and `0/0` are NaN, division by zero
and by infinity follow IEEE sign rules (signed zeroes collapse to
`fin 0` in this model). -/
def fdiv : F64 → F64 → F64
  | nan, _ => nan
  | _, nan => nan
  | inf _, inf _ => nan
  | inf s, fin q => inf (s == decide (0 ≤ q))
  | fin _, inf _ => fin 0
  | fin a, fin b =>
      if b = 0 then (if a = 0 then nan else inf (decide (0 ≤ a)))
      else fin (a / b)

/-- Rust `a * b` on `f64`: NaN propagates, `inf * 0` is NaN, otherwise
infinities keep the product sign. -/
def fmul : F64 → F64 → F64
  | nan, _ => nan
  | _, nan => nan
  | inf s, inf t => inf (s == t)
  | inf s, fin q => if q = 0 then nan else inf (s == decide (0 < q))
  | fin q, inf s => if q = 0 then nan else inf (s == decide (0 < q))
  | fin a, fin b => fin (a * b)

end F64

/-- The mutable accumulators of `main` (lines 242-247 of the source):
best-so-far absolute difference and best-so-far ratio, each with the
contributing value pair and 1-indexed line number. -/
structure DiffState where
  max_abs_diff : F64
  max_abs_vals : F64 × F64
  max_diff_line : Nat
  max_ratio : F64
  max_ratio_vals : F64 × F64
  max_ratio_line : Nat
deriving DecidableEq

/-- Initial accumulator values from the source: `max_abs_diff = 0.0`,
`max_ratio = 1.0` ("no difference"), zero lines and zero value pairs. -/
def initState : DiffState :=
  { max_abs_diff := .fin 0
    max_abs_vals := (.fin 0, .fin 0)
    max_diff_line := 0
    max_ratio := .fin 1
    max_ratio_vals := (.fin 0, .fin 0)
    max_ratio_line := 0 }

/-- The ratio metric of lines 323-327: positive infinity when either
value equals zero, otherwise `max(|a1|,|a2|) / min(|a1|,|a2|)`. -/
def ratioMetric (a1 a2 : F64) : F64 :=
  if a1.isZero || a2.isZero then .inf true
  else F64.fdiv (F64.fmax a1.fabs a2.fabs) (F64.fmin a1.fabs a2.fabs)

/-- One iteration of the per-pair comparison loop (lines 304-332): skip
when both values are zero, skip when both magnitudes are below the
threshold, otherwise update the absolute-difference extremum and then
the ratio extremum, each only on a strict increase. -/
def stepPair (t : F64) (line : Nat) (st : DiffState) (p : F64 × F64) :
    DiffState :=
  let a1 := p.1
  let a2 := p.2
  if a1.isZero && a2.isZero then st
  else if F64.flt a1.fabs t && F64.flt a2.fabs t then st
  else
    let diff := (F64.fsub a1 a2).fabs
    let st1 :=
      if F64.flt st.max_abs_diff diff then
        { st with max_abs_diff := diff, max_abs_vals := (a1, a2),
                  max_diff_line := line }
      else st
    let r := ratioMetric a1 a2
    if F64.flt st1.max_ratio r then
      { st1 with max_ratio := r, max_ratio_vals := (a1, a2),
                 max_ratio_line := line }
    else st1

/-- Folding the comparison loop over the value pairs of one row. -/
def foldPairs (t : F64) (line : Nat) (st : DiffState)
    (ps : List (F64 × F64)) : DiffState :=
  ps.foldl (stepPair t line) st

/-- ASCII digit test, as in the regex character class `[0-9]`. -/
def isDigitCh (c : Char) : Bool := c.isDigit

/-- Sign character, as in the regex character class `[-+]`. -/
def isSignCh (c : Char) : Bool := c == '+' || c == '-'

/-- Exponent marker, as in the regex character class `[Ee]`. -/
def isExpMark (c : Char) : Bool := c == 'e' || c == 'E'

/-- Does the list start with a digit (used for `[-+]?[0-9]+` lookahead). -/
def headDigit : List Char → Bool
  | d :: _ => isDigitCh d
  | [] => false

/-- Does `[-+]?[0-9]+` match a prefix of the list. -/
def expTail (l : List Char) : Bool :=
  match l with
  | [] => false
  | c :: rest => isDigitCh c || (isSignCh c && headDigit rest)

/-- Does `[Ee][-+]?[0-9]+` match a prefix of the list. -/
def patTail : List Char → Bool
  | [] => false
  | c :: rest => isExpMark c && expTail rest

/-- Does `[0-9]+[Ee][-+]?[0-9]+` match a prefix of the list (the part of
the mantissa after a decimal point, followed by the exponent). -/
def afterDot : List Char → Bool
  | [] => false
  | c :: rest => isDigitCh c && (patTail rest || afterDot rest)

/-- Does `[0-9]*\.?[0-9]+[Ee][-+]?[0-9]+` match a prefix of the list
(backtracking over where the digit runs end). -/
def mant : List Char → Bool
  | [] => false
  | c :: rest =>
      if isDigitCh c then mant rest || patTail rest
      else if c == '.' then afterDot rest
      else false

/-- Does the full pattern `[-+]?[0-9]*\.?[0-9]+[Ee][-+]?[0-9]+` match a
prefix of the list. -/
def startHere (l : List Char) : Bool :=
  match l with
  | [] => false
  | c :: rest => (isSignCh c && mant rest) || mant (c :: rest)

/-- Does the pattern match anywhere in the list (unanchored search). -/
def hasMatch : List Char → Bool
  | [] => false
  | c :: rest => startHere (c :: rest) || hasMatch rest

/-- Model of `float_re.is_match(cell)` with
`float_re = [-+]?[0-9]*\.?[0-9]+[Ee][-+]?[0-9]+` (line 174 of the
source): an unanchored substring search for the pattern. -/
def float_re_is_match (s : String) : Bool := hasMatch s.data

/-- Consume one optional leading sign character. -/
def dropSign : List Char → List Char
  | c :: rest => if isSignCh c then rest else c :: rest
  | [] => []

/-- Consume a maximal run of digits, returning its length and the rest. -/
def takeDigits : List Char → Nat × List Char
  | [] => (0, [])
  | c :: rest =>
      if isDigitCh c then
        let p := takeDigits rest
        (p.1 + 1, p.2)
      else (0, c :: rest)

/-- Case-insensitive comparison against a lowercase word. -/
def lowerEq (l w : List Char) : Bool := l.map Char.toLower == w

/-- The special words accepted by Rust `f64::from_str` after the
optional sign: `inf`, `infinity`, `nan` (case-insensitive, consuming the
whole remainder). -/
def parseSpecialOk (l : List Char) : Bool :=
  lowerEq l ['i', 'n', 'f'] ||
  lowerEq l ['i', 'n', 'f', 'i', 'n', 'i', 't', 'y'] ||
  lowerEq l ['n', 'a', 'n']

/-- Acceptance of the optional exponent part of Rust `f64::from_str`:
either nothing, or `e`/`E`, an optional sign and at least one digit,
consuming the whole remainder. -/
def parseExpOk (l : List Char) : Bool :=
  match l with
  | [] => true
  | c :: rest =>
      isExpMark c &&
      (let p := takeDigits (dropSign rest)
       decide (0 < p.1) && p.2 == [])

/-- Acceptance of the decimal-number form of Rust `f64::from_str`:
digits, an optional point with more digits (at least one digit in the
mantissa overall), then the optional exponent part. -/
def parseDecOk (l : List Char) : Bool :=
  let p1 := takeDigits l
  match p1.2 with
  | '.' :: r =>
      let p2 := takeDigits r
      decide (0 < p1.1 + p2.1) && parseExpOk p2.2
  | r => decide (0 < p1.1) && parseExpOk r

/-- Model of `cell.parse::<f64>().is_ok()`: the acceptance grammar of
Rust `f64::from_str` (an optional sign, then a special word or a decimal
number with optional exponent; the whole string must be consumed and
rounding, which cannot fail, is irrelevant to acceptance). -/
def parseF64Ok (s : String) : Bool :=
  let l := dropSign s.data
  parseSpecialOk l || parseDecOk l

/-- The cell classification of lines 228-231 of the source: a cell is a
float cell iff the pattern matches and generic `f64` parsing succeeds. -/
def isFloatCell (s : String) : Bool := float_re_is_match s && parseF64Ok s

/-- The fatal-exit conditions of `main`, modelled as values (the program
prints a diagnostic to stderr and calls `process::exit(1)` in each
case). -/
inductive DiffError where
  | rowCount (n1 n2 : Nat)
  | cellCount (line l1 l2 : Nat)
  | oobClassify (line : Nat)
  | oobExtract (file line : Nat)
  | parseError (file : Nat) (cell : String) (line : Nat)
  | floatLayout (line : Nat)
deriving DecidableEq

/-- The inner column loop of the first pass (lines 226-236): for each
cell pair at index `i`, read `float_cols[i]` (a panic, modelled as
`none`, when out of bounds) and clear it when it was set and either cell
is not a float cell. -/
def classifyCells (fc : List Bool) (i : Nat) :
    List (String × String) → Option (List Bool)
  | [] => some fc
  | p :: rest =>
      match fc.get? i with
      | none => none
      | some b =>
          classifyCells
            (if b && !(isFloatCell p.1 && isFloatCell p.2) then fc.set i false
             else fc)
            (i + 1) rest

/-- The first-pass row loop (lines 204-239): per row, check equal cell
counts, initialize the column flags to all-true from the first row's
cell count, and run the column loop; `float_columns.unwrap_or_default()`
yields `[]` for an empty file pair. -/
def firstPassGo (fc : Option (List Bool)) (line : Nat) :
    List (List String × List String) → Except DiffError (List Bool)
  | [] => .ok (fc.getD [])
  | rp :: rest =>
      if rp.1.length ≠ rp.2.length then
        .error (.cellCount line rp.1.length rp.2.length)
      else
        match classifyCells (fc.getD (List.replicate rp.1.length true)) 0
            (rp.1.zip rp.2) with
        | none => .error (.oobClassify line)
        | some fc' => firstPassGo (some fc') (line + 1) rest

/-- The whole first pass (lines 195-239): the row-count check performed
right after both files are fully read, then the classification loop. -/
def firstPass (r1 r2 : List (List String)) : Except DiffError (List Bool) :=
  if r1.length ≠ r2.length then .error (.rowCount r1.length r2.length)
  else firstPassGo none 1 (r1.zip r2)

/-- The second-pass extraction of one row (lines 254-293): keep the
`(index, value)` pairs of the cells whose column flag is set and whose
text matches the pattern, aborting on a parse failure; reading
`float_cols[i]` out of bounds is a panic, modelled as an error.  The
numeric value of a successfully parsed cell is given by the valuation
`pv` (finite-precision rounding is not modelled; no claim depends on the
value a particular literal rounds to). -/
def extractCells (fc : List Bool) (pv : String → F64) (file line i : Nat) :
    List String → Except DiffError (List (Nat × F64))
  | [] => .ok []
  | c :: rest =>
      match fc.get? i with
      | none => .error (.oobExtract file line)
      | some b =>
          if b && float_re_is_match c then
            if parseF64Ok c then do
              let vs ← extractCells fc pv file line (i + 1) rest
              .ok ((i, pv c) :: vs)
            else .error (.parseError file c line)
          else extractCells fc pv file line (i + 1) rest

/-- The second-pass row loop (lines 250-334): extract both files' float
values, skip rows where both are empty, abort when the counts differ
("float layout differs"), otherwise fold the comparison over the zipped
value pairs. -/
def comparePass (fc : List Bool) (pv : String → F64) (t : F64) :
    Nat → List (List String × List String) → DiffState →
    Except DiffError DiffState
  | _, [], st => .ok st
  | line, rp :: rest, st => do
      let f1 ← extractCells fc pv 1 line 0 rp.1
      let f2 ← extractCells fc pv 2 line 0 rp.2
      if f1.isEmpty && f2.isEmpty then comparePass fc pv t (line + 1) rest st
      else if f1.length ≠ f2.length then .error (.floatLayout line)
      else
        comparePass fc pv t (line + 1) rest
          (foldPairs t line st ((f1.zip f2).map (fun q => (q.1.2, q.2.2))))

/-- The full scan: first pass (shape checks and column classification)
followed by the second pass (extraction and reduction) starting from the
neutral accumulators. -/
def run (pv : String → F64) (t : F64) (r1 r2 : List (List String)) :
    Except DiffError DiffState := do
  let fc ← firstPass r1 r2
  comparePass fc pv t 1 (r1.zip r2) initState

/-- Decidable equality for `Except`, so that concrete runs of the
pipeline can be evaluated by `decide`. -/
instance instExceptDecEq {ε α : Type} [DecidableEq ε] [DecidableEq α] :
    DecidableEq (Except ε α) := fun a b =>
  match a, b with
  | .ok x, .ok y =>
      if h : x = y then .isTrue (by rw [h]) else .isFalse (by simp [h])
  | .error x, .error y =>
      if h : x = y then .isTrue (by rw [h]) else .isFalse (by simp [h])
  | .ok _, .error _ => .isFalse (by simp)
  | .error _, .ok _ => .isFalse (by simp)

/-- The percent difference of the report (lines 351, 383, 397):
`((max_ratio - 1.0) * 100.0).abs()`. -/
def ratioPercent (mr : F64) : F64 :=
  (F64.fmul (F64.fsub mr (.fin 1)) (.fin 100)).fabs

/-- Ratio status in explain mode (line 359): FAILED iff
`percentage_diff > mr * 100.0`. -/
def ratioFailedExplain (mr thr : F64) : Bool :=
  F64.flt (F64.fmul thr (.fin 100)) (ratioPercent mr)

/-- Ratio status in aligned mode (line 384): PASSED iff
`percentage_diff <= mr * 100.0`. -/
def ratioPassedAlign (mr thr : F64) : Bool :=
  F64.fle (ratioPercent mr) (F64.fmul thr (.fin 100))

/-- Ratio status in default compact mode (line 403): FAILED iff
`percentage_diff > mr * 100.0`. -/
def ratioFailedDefault (mr thr : F64) : Bool :=
  F64.flt (F64.fmul thr (.fin 100)) (ratioPercent mr)

/-- Absolute-difference status in explain mode (line 373): FAILED iff
`max_abs_diff > md`. -/
def diffFailedExplain (mad thr : F64) : Bool := F64.flt thr mad

/-- Absolute-difference status in aligned mode (line 389): PASSED iff
`max_abs_diff <= md`. -/
def diffPassedAlign (mad thr : F64) : Bool := F64.fle mad thr

/-- Absolute-difference status in default compact mode (line 417):
FAILED iff `max_abs_diff > md`. -/
def diffFailedDefault (mad thr : F64) : Bool := F64.flt thr mad

namespace F64

theorem flt_irrefl (a : F64) : flt a a = false := by
  cases a with
  | nan => rfl
  | inf s => cases s <;> rfl
  | fin q => simp [flt]

theorem isNan_false_of_flt_left {a b : F64} (h : flt a b = true) :
    a.isNan = false := by
  cases a <;> cases b <;> simp_all [flt, isNan]

theorem isNan_false_of_flt_right {a b : F64} (h : flt a b = true) :
    b.isNan = false := by
  cases a <;> cases b <;> simp_all [flt, isNan]

theorem flt_asymm {a b : F64} (h : flt a b = true) : flt b a = false := by
  cases a with
  | nan => simp_all [flt]
  | inf s =>
      cases b with
      | nan => simp_all [flt]
      | inf t => cases s <;> cases t <;> simp_all [flt]
      | fin q => cases s <;> simp_all [flt]
  | fin q =>
      cases b with
      | nan => simp_all [flt]
      | inf t => cases t <;> simp_all [flt]
      | fin r =>
          simp only [flt, decide_eq_true_eq] at h
          simp [flt, not_lt.mpr (le_of_lt h)]

theorem fle_of_flt {a b : F64} (h : flt a b = true) : fle a b = true := by
  simp [fle, isNan_false_of_flt_left h, isNan_false_of_flt_right h,
    flt_asymm h]

theorem fle_refl {a : F64} (h : a.isNan = false) : fle a a = true := by
  simp [fle, h, flt_irrefl]

theorem isNan_false_of_fle_left {a b : F64} (h : fle a b = true) :
    a.isNan = false := by
  simp only [fle, Bool.and_eq_true, Bool.not_eq_true'] at h
  exact h.1.1

theorem isNan_false_of_fle_right {a b : F64} (h : fle a b = true) :
    b.isNan = false := by
  simp only [fle, Bool.and_eq_true, Bool.not_eq_true'] at h
  exact h.1.2

theorem fle_trans {a b c : F64} (h1 : fle a b = true) (h2 : fle b c = true) :
    fle a c = true := by
  simp only [fle, Bool.and_eq_true, Bool.not_eq_true'] at h1 h2 ⊢
  refine ⟨⟨h1.1.1, h2.1.2⟩, ?_⟩
  cases a with
  | nan => simp [isNan] at h1
  | inf s =>
      cases c with
      | nan => simp [isNan] at h2
      | inf t =>
          cases b with
          | nan => simp [isNan] at h1
          | inf u => cases s <;> cases t <;> cases u <;> simp_all [flt]
          | fin q => cases s <;> cases t <;> simp_all [flt]
      | fin q =>
          cases b with
          | nan => simp [isNan] at h1
          | inf u => cases s <;> cases u <;> simp_all [flt]
          | fin r => cases s <;> simp_all [flt]
  | fin q =>
      cases c with
      | nan => simp [isNan] at h2
      | inf t =>
          cases b with
          | nan => simp [isNan] at h1
          | inf u => cases t <;> cases u <;> simp_all [flt]
          | fin r => cases t <;> simp_all [flt]
      | fin r =>
          cases b with
          | nan => simp [isNan] at h1
          | inf u => cases u <;> simp_all [flt]
          | fin p =>
              simp only [flt, decide_eq_false_iff_not, not_lt] at h1 h2 ⊢
              exact le_trans h1.2 h2.2

theorem fle_of_flt_false_left {a b : F64} (ha : a.isNan = false)
    (hb : b.isNan = false) (h : flt a b = false) : fle b a = true := by
  simp [fle, ha, hb, h]

end F64

theorem stepPair_max_ratio (t : F64) (line : Nat) (st : DiffState)
    (p : F64 × F64) :
    (stepPair t line st p).max_ratio =
      if (p.1.isZero && p.2.isZero) = true then st.max_ratio
      else if (F64.flt p.1.fabs t && F64.flt p.2.fabs t) = true then
        st.max_ratio
      else if F64.flt st.max_ratio (ratioMetric p.1 p.2) = true then
        ratioMetric p.1 p.2
      else st.max_ratio := by
  simp only [stepPair]
  split_ifs <;> rfl

theorem stepPair_max_abs_diff (t : F64) (line : Nat) (st : DiffState)
    (p : F64 × F64) :
    (stepPair t line st p).max_abs_diff =
      if (p.1.isZero && p.2.isZero) = true then st.max_abs_diff
      else if (F64.flt p.1.fabs t && F64.flt p.2.fabs t) = true then
        st.max_abs_diff
      else if F64.flt st.max_abs_diff (p.1.fsub p.2).fabs = true then
        (p.1.fsub p.2).fabs
      else st.max_abs_diff := by
  simp only [stepPair]
  split_ifs <;> rfl

/-- The state invariant of the two accumulators: the ratio extremum is
at least the neutral `1.0` and the difference extremum at least the
neutral `0.0`. -/
def stInv (st : DiffState) : Prop :=
  F64.fle (.fin 1) st.max_ratio = true ∧
  F64.fle (.fin 0) st.max_abs_diff = true

theorem stepPair_stInv {st : DiffState} (t : F64) (line : Nat)
    (p : F64 × F64) (h : stInv st) : stInv (stepPair t line st p) := by
  obtain ⟨h1, h2⟩ := h
  constructor
  · rw [stepPair_max_ratio]
    split_ifs with c1 c2 c3
    · exact h1
    · exact h1
    · exact F64.fle_trans h1 (F64.fle_of_flt c3)
    · exact h1
  · rw [stepPair_max_abs_diff]
    split_ifs with c1 c2 c3
    · exact h2
    · exact h2
    · exact F64.fle_trans h2 (F64.fle_of_flt c3)
    · exact h2

theorem stepPair_mono {st : DiffState} (t : F64) (line : Nat)
    (p : F64 × F64) (h : stInv st) :
    F64.fle st.max_ratio (stepPair t line st p).max_ratio = true ∧
    F64.fle st.max_abs_diff (stepPair t line st p).max_abs_diff = true := by
  obtain ⟨h1, h2⟩ := h
  constructor
  · rw [stepPair_max_ratio]
    split_ifs with c1 c2 c3
    · exact F64.fle_refl (F64.isNan_false_of_fle_right h1)
    · exact F64.fle_refl (F64.isNan_false_of_fle_right h1)
    · exact F64.fle_of_flt c3
    · exact F64.fle_refl (F64.isNan_false_of_fle_right h1)
  · rw [stepPair_max_abs_diff]
    split_ifs with c1 c2 c3
    · exact F64.fle_refl (F64.isNan_false_of_fle_right h2)
    · exact F64.fle_refl (F64.isNan_false_of_fle_right h2)
    · exact F64.fle_of_flt c3
    · exact F64.fle_refl (F64.isNan_false_of_fle_right h2)

theorem foldPairs_stInv {st : DiffState} (t : F64) (line : Nat)
    (ps : List (F64 × F64)) (h : stInv st) :
    stInv (foldPairs t line st ps) := by
  induction ps generalizing st with
  | nil => exact h
  | cons p rest ih => exact ih (stepPair_stInv t line p h)

theorem foldPairs_mono {st : DiffState} (t : F64) (line : Nat)
    (ps : List (F64 × F64)) (h : stInv st) :
    F64.fle st.max_ratio (foldPairs t line st ps).max_ratio = true ∧
    F64.fle st.max_abs_diff (foldPairs t line st ps).max_abs_diff = true := by
  induction ps generalizing st with
  | nil =>
      exact ⟨F64.fle_refl (F64.isNan_false_of_fle_right h.1),
        F64.fle_refl (F64.isNan_false_of_fle_right h.2)⟩
  | cons p rest ih =>
      have hstep := stepPair_mono t line p h
      have hnext := ih (stepPair_stInv t line p h)
      exact ⟨F64.fle_trans hstep.1 hnext.1, F64.fle_trans hstep.2 hnext.2⟩

theorem comparePass_stInv {fc : List Bool} {pv : String → F64} {t : F64}
    {line : Nat} {rows : List (List String × List String)} {st st' : DiffState}
    (hok : comparePass fc pv t line rows st = .ok st') (h : stInv st) :
    stInv st' := by
  induction rows generalizing line st with
  | nil =>
      simp only [comparePass] at hok
      cases hok
      exact h
  | cons rp rest ih =>
      simp only [comparePass] at hok
      cases he1 : extractCells fc pv 1 line 0 rp.1 with
      | error e => rw [he1] at hok; simp [Bind.bind, Except.bind] at hok
      | ok f1 =>
          cases he2 : extractCells fc pv 2 line 0 rp.2 with
          | error e => rw [he1, he2] at hok; simp [Bind.bind, Except.bind] at hok
          | ok f2 =>
              rw [he1, he2] at hok
              simp only [Bind.bind, Except.bind] at hok
              split_ifs at hok with hc1 hc2
              · exact ih hok h
              · exact ih hok (foldPairs_stInv t line _ h)

theorem comparePass_mono {fc : List Bool} {pv : String → F64} {t : F64}
    {line : Nat} {rows : List (List String × List String)} {st st' : DiffState}
    (hok : comparePass fc pv t line rows st = .ok st') (h : stInv st) :
    F64.fle st.max_ratio st'.max_ratio = true ∧
    F64.fle st.max_abs_diff st'.max_abs_diff = true := by
  induction rows generalizing line st with
  | nil =>
      simp only [comparePass] at hok
      cases hok
      exact ⟨F64.fle_refl (F64.isNan_false_of_fle_right h.1),
        F64.fle_refl (F64.isNan_false_of_fle_right h.2)⟩
  | cons rp rest ih =>
      simp only [comparePass] at hok
      cases he1 : extractCells fc pv 1 line 0 rp.1 with
      | error e => rw [he1] at hok; simp [Bind.bind, Except.bind] at hok
      | ok f1 =>
          cases he2 : extractCells fc pv 2 line 0 rp.2 with
          | error e => rw [he1, he2] at hok; simp [Bind.bind, Except.bind] at hok
          | ok f2 =>
              rw [he1, he2] at hok
              simp only [Bind.bind, Except.bind] at hok
              split_ifs at hok with hc1 hc2
              · exact ih hok h
              · have hfold := foldPairs_mono t line
                  ((f1.zip f2).map (fun q => (q.1.2, q.2.2))) h
                have hnext := ih hok (foldPairs_stInv t line _ h)
                exact ⟨F64.fle_trans hfold.1 hnext.1,
                  F64.fle_trans hfold.2 hnext.2⟩

theorem initState_stInv : stInv initState := by
  constructor <;> decide

theorem run_stInv {pv : String → F64} {t : F64} {r1 r2 : List (List String)}
    {st' : DiffState} (hok : run pv t r1 r2 = .ok st') : stInv st' := by
  unfold run at hok
  cases hfp : firstPass r1 r2 with
  | error e => rw [hfp] at hok; simp [Bind.bind, Except.bind] at hok
  | ok fc =>
      rw [hfp] at hok
      simp only [Bind.bind, Except.bind] at hok
      exact comparePass_stInv hok initState_stInv

/-- C2: a value pair in which both values are exactly zero, or in which
both absolute magnitudes are strictly below the threshold, leaves the
whole accumulator state (both extrema) completely unchanged, for every
state and every threshold. -/
theorem c2_skipped_pairs_leave_state_unchanged (t : F64) (line : Nat)
    (st : DiffState) (v1 v2 : F64)
    (h : (v1.isZero && v2.isZero) = true ∨
      (F64.flt v1.fabs t && F64.flt v2.fabs t) = true) :
    stepPair t line st (v1, v2) = st := by
  rcases h with h | h
  · simp [stepPair, h]
  · by_cases hz : (v1.isZero && v2.isZero) = true
    · simp [stepPair, hz]
    · simp [stepPair, hz, h]

/-- Witness for C2: the pair `(1.0, 1.0)` under threshold `2.0` is
skipped and leaves the initial state unchanged. -/
theorem c2_witness :
    stepPair (.fin 2) 1 initState (.fin 1, .fin 1) = initState :=
  c2_skipped_pairs_leave_state_unchanged (.fin 2) 1 initState (.fin 1)
    (.fin 1) (Or.inr (by decide))

/-- C1: for a pair that is not skipped, the ratio metric is positive
infinity when exactly one of the two values is zero, and otherwise is
`max(|v1|,|v2|) / min(|v1|,|v2|)`; the ratio extremum is replaced by the
metric exactly when the metric is strictly greater than the current
best; and in particular the pair `(0.0, 5.0)`, not skipped by the
threshold, makes the ratio extremum positive infinity. -/
theorem c1_ratio_metric_and_update :
    (∀ (t : F64) (line : Nat) (st : DiffState) (v1 v2 : F64),
      (v1.isZero && v2.isZero) = false →
      (F64.flt v1.fabs t && F64.flt v2.fabs t) = false →
      ((v1.isZero ≠ v2.isZero → ratioMetric v1 v2 = .inf true) ∧
       (v1.isZero = false → v2.isZero = false →
         ratioMetric v1 v2 =
           F64.fdiv (F64.fmax v1.fabs v2.fabs) (F64.fmin v1.fabs v2.fabs)) ∧
       (stepPair t line st (v1, v2)).max_ratio =
         (if F64.flt st.max_ratio (ratioMetric v1 v2) = true then
            ratioMetric v1 v2
          else st.max_ratio))) ∧
    (∀ (t : F64) (line : Nat) (st : DiffState),
      F64.fle (.fin 1) st.max_ratio = true →
      (F64.flt (F64.fabs (.fin 0)) t && F64.flt (F64.fabs (.fin 5)) t) =
        false →
      (stepPair t line st (.fin 0, .fin 5)).max_ratio = .inf true) := by
  constructor
  · intro t line st v1 v2 h1 h2
    refine ⟨?_, ?_, ?_⟩
    · intro hne
      cases hz1 : v1.isZero <;> cases hz2 : v2.isZero <;>
        simp_all [ratioMetric]
    · intro hz1 hz2
      simp [ratioMetric, hz1, hz2]
    · rw [stepPair_max_ratio]
      simp [h1, h2]
  · intro t line st hst ht
    have hm : ratioMetric (.fin 0) (.fin 5) = .inf true := by decide
    rw [stepPair_max_ratio]
    simp only [ht, hm]
    have hz : ((F64.fin 0).isZero && (F64.fin 5).isZero) = false := by decide
    rw [hz]
    cases hmr : st.max_ratio with
    | nan => rw [hmr] at hst; simp [F64.fle, F64.isNan] at hst
    | inf s =>
        cases s with
        | true => simp [F64.flt]
        | false => rw [hmr] at hst; simp [F64.fle, F64.flt, F64.isNan] at hst
    | fin q => simp [F64.flt]

/-- Witness for C1: the pair `(0.0, 5.0)` with threshold `0` applied to
the initial state drives the ratio extremum to positive infinity. -/
theorem c1_witness :
    (stepPair (.fin 0) 1 initState (.fin 0, .fin 5)).max_ratio =
      .inf true :=
  c1_ratio_metric_and_update.2 (.fin 0) 1 initState (by decide) (by decide)

/-- C5: the ratio extremum is always at least its neutral value `1.0`
and the difference extremum at least its neutral value `0.0`; one
comparison step never decreases either extremum (for arbitrary value
pairs, infinities included); the initial state satisfies both bounds;
and every completed run ends in a state satisfying both bounds. -/
theorem c5_extrema_invariants :
    (∀ (t : F64) (line : Nat) (st : DiffState) (p : F64 × F64),
      F64.fle (.fin 1) st.max_ratio = true →
      F64.fle (.fin 0) st.max_abs_diff = true →
      (F64.fle (.fin 1) (stepPair t line st p).max_ratio = true ∧
       F64.fle (.fin 0) (stepPair t line st p).max_abs_diff = true ∧
       F64.fle st.max_ratio (stepPair t line st p).max_ratio = true ∧
       F64.fle st.max_abs_diff (stepPair t line st p).max_abs_diff =
         true)) ∧
    (F64.fle (.fin 1) initState.max_ratio = true ∧
     F64.fle (.fin 0) initState.max_abs_diff = true) ∧
    (∀ (pv : String → F64) (t : F64) (r1 r2 : List (List String))
      (st' : DiffState), run pv t r1 r2 = .ok st' →
      F64.fle (.fin 1) st'.max_ratio = true ∧
      F64.fle (.fin 0) st'.max_abs_diff = true) := by
  refine ⟨?_, initState_stInv, ?_⟩
  · intro t line st p h1 h2
    have hinv := stepPair_stInv t line p ⟨h1, h2⟩
    have hmono := stepPair_mono t line p ⟨h1, h2⟩
    exact ⟨hinv.1, hinv.2, hmono.1, hmono.2⟩
  · intro pv t r1 r2 st' hok
    exact run_stInv hok

/-- Witness for C5: one step on the infinite pair `(+inf, 5.0)` from the
initial state keeps both bounds and both monotonicity facts, and a
completed run on a one-cell non-numeric file pair ends with both bounds
holding. -/
theorem c5_witness :
    (F64.fle (.fin 1)
        (stepPair (.fin 0) 7 initState (.inf true, .fin 5)).max_ratio =
      true ∧
     F64.fle (.fin 0)
        (stepPair (.fin 0) 7 initState (.inf true, .fin 5)).max_abs_diff =
      true ∧
     F64.fle initState.max_ratio
        (stepPair (.fin 0) 7 initState (.inf true, .fin 5)).max_ratio =
      true ∧
     F64.fle initState.max_abs_diff
        (stepPair (.fin 0) 7 initState (.inf true, .fin 5)).max_abs_diff =
      true) ∧
    (F64.fle (.fin 1) initState.max_ratio = true ∧
     F64.fle (.fin 0) initState.max_abs_diff = true) :=
  ⟨c5_extrema_invariants.1 (.fin 0) 7 initState (.inf true, .fin 5)
      (by decide) (by decide),
   c5_extrema_invariants.2.2 (fun _ => .fin 1) (.fin 0) [["a"]] [["b"]]
      initState (by decide)⟩

theorem isNan_fabs (a : F64) : a.fabs.isNan = a.isNan := by
  cases a <;> rfl

theorem isNan_fmul_hundred (a : F64) :
    (F64.fmul a (.fin 100)).isNan = a.isNan := by
  cases a with
  | nan => rfl
  | inf s =>
      have h : (100 : ℚ) ≠ 0 := by norm_num
      simp [F64.fmul, F64.isNan, h]
  | fin q => rfl

theorem isNan_ratioPercent {a : F64} (h : a.isNan = false) :
    (ratioPercent a).isNan = false := by
  unfold ratioPercent
  rw [isNan_fabs, isNan_fmul_hundred]
  cases a with
  | nan => simp [F64.isNan] at h
  | inf s => rfl
  | fin q => rfl

theorem fle_eq_not_flt {a b : F64} (ha : a.isNan = false)
    (hb : b.isNan = false) : F64.fle a b = !F64.flt b a := by
  simp [F64.fle, ha, hb]

/-- Counterexample for C6: with best ratio `2.0` and a requested
`max_ratio` threshold of NaN (accepted by the CLI parser), the claim
predicts PASSED in every mode (`percent > r * 100` is false on NaN), and
explain mode indeed reports PASSED, but aligned mode computes
`passed = percent <= r * 100`, which is also false on NaN, and so
reports FAILED: the claimed status condition is violated in aligned
mode. -/
theorem c6_counterexample :
    ratioFailedExplain (.fin 2) .nan = false ∧
    ratioPassedAlign (.fin 2) .nan = false ∧
    F64.flt (F64.fmul .nan (.fin 100)) (ratioPercent (.fin 2)) = false := by
  refine ⟨rfl, ?_, rfl⟩
  have h : (ratioPercent (.fin 2)).isNan = false := isNan_ratioPercent rfl
  simp [ratioPassedAlign, F64.fle, F64.fmul, F64.isNan]

/-- C6 (amended): provided the requested threshold is not NaN and the
best metric value is not NaN (the program's extrema never are), the
ratio status is FAILED exactly when `|(best_ratio - 1) * 100| > r * 100`
and the absolute-difference status is FAILED exactly when
`best_abs_diff > d`, in every output mode. -/
theorem c6_status_iff (best r mad d : F64)
    (hbest : best.isNan = false) (hr : r.isNan = false)
    (hmad : mad.isNan = false) (hd : d.isNan = false) :
    (ratioFailedExplain best r =
       F64.flt (F64.fmul r (.fin 100)) (ratioPercent best) ∧
     ratioFailedDefault best r =
       F64.flt (F64.fmul r (.fin 100)) (ratioPercent best) ∧
     ratioPassedAlign best r =
       !F64.flt (F64.fmul r (.fin 100)) (ratioPercent best)) ∧
    (diffFailedExplain mad d = F64.flt d mad ∧
     diffFailedDefault mad d = F64.flt d mad ∧
     diffPassedAlign mad d = !F64.flt d mad) := by
  refine ⟨⟨rfl, rfl, ?_⟩, rfl, rfl, ?_⟩
  · exact fle_eq_not_flt (isNan_ratioPercent hbest) (isNan_fmul_hundred r ▸ hr)
  · exact fle_eq_not_flt hmad hd

/-- Witness for C6 (amended): all three ratio statuses and all three
difference statuses agree with the claimed conditions at best ratio
`2.0`, ratio threshold `1.0`, best difference `0.0` and difference
threshold `1.0`. -/
theorem c6_witness :
    (ratioFailedExplain (.fin 2) (.fin 1) =
       F64.flt (F64.fmul (.fin 1) (.fin 100)) (ratioPercent (.fin 2)) ∧
     ratioFailedDefault (.fin 2) (.fin 1) =
       F64.flt (F64.fmul (.fin 1) (.fin 100)) (ratioPercent (.fin 2)) ∧
     ratioPassedAlign (.fin 2) (.fin 1) =
       !F64.flt (F64.fmul (.fin 1) (.fin 100)) (ratioPercent (.fin 2))) ∧
    (diffFailedExplain (.fin 0) (.fin 1) = F64.flt (.fin 1) (.fin 0) ∧
     diffFailedDefault (.fin 0) (.fin 1) = F64.flt (.fin 1) (.fin 0) ∧
     diffPassedAlign (.fin 0) (.fin 1) = !F64.flt (.fin 1) (.fin 0)) :=
  c6_status_iff (.fin 2) (.fin 1) (.fin 0) (.fin 1) rfl rfl rfl rfl

theorem patTail_exp {l : List Char} (h : patTail l = true) :
    ∃ c ∈ l, isExpMark c = true := by
  cases l with
  | nil => simp [patTail] at h
  | cons c rest =>
      simp only [patTail, Bool.and_eq_true] at h
      exact ⟨c, List.mem_cons_self c rest, h.1⟩

theorem afterDot_exp {l : List Char} (h : afterDot l = true) :
    ∃ c ∈ l, isExpMark c = true := by
  induction l with
  | nil => simp [afterDot] at h
  | cons c rest ih =>
      simp only [afterDot, Bool.and_eq_true, Bool.or_eq_true] at h
      rcases h.2 with h2 | h2
      · obtain ⟨d, hd, he⟩ := patTail_exp h2
        exact ⟨d, List.mem_cons_of_mem c hd, he⟩
      · obtain ⟨d, hd, he⟩ := ih h2
        exact ⟨d, List.mem_cons_of_mem c hd, he⟩

theorem mant_exp {l : List Char} (h : mant l = true) :
    ∃ c ∈ l, isExpMark c = true := by
  induction l with
  | nil => simp [mant] at h
  | cons c rest ih =>
      simp only [mant] at h
      split_ifs at h with h1 h2
      · simp only [Bool.or_eq_true] at h
        rcases h with h | h
        · obtain ⟨d, hd, he⟩ := ih h
          exact ⟨d, List.mem_cons_of_mem c hd, he⟩
        · obtain ⟨d, hd, he⟩ := patTail_exp h
          exact ⟨d, List.mem_cons_of_mem c hd, he⟩
      · obtain ⟨d, hd, he⟩ := afterDot_exp h
        exact ⟨d, List.mem_cons_of_mem c hd, he⟩

theorem startHere_exp {l : List Char} (h : startHere l = true) :
    ∃ c ∈ l, isExpMark c = true := by
  cases l with
  | nil => simp [startHere] at h
  | cons c rest =>
      simp only [startHere, Bool.or_eq_true, Bool.and_eq_true] at h
      rcases h with ⟨hs, hm⟩ | hm
      · obtain ⟨d, hd, he⟩ := mant_exp hm
        exact ⟨d, List.mem_cons_of_mem c hd, he⟩
      · exact mant_exp hm

theorem hasMatch_exp {l : List Char} (h : hasMatch l = true) :
    ∃ c ∈ l, isExpMark c = true := by
  induction l with
  | nil => simp [hasMatch] at h
  | cons c rest ih =>
      simp only [hasMatch, Bool.or_eq_true] at h
      rcases h with h | h
      · exact startHere_exp h
      · obtain ⟨d, hd, he⟩ := ih h
        exact ⟨d, List.mem_cons_of_mem c hd, he⟩

/-- C3: a cell is classified as a float exactly when both the
scientific-notation pattern matches and generic `f64` parsing succeeds;
consequently a cell with no `e`/`E` exponent marker anywhere never
qualifies, and in particular the plain decimal `"3.14"` does not. -/
theorem c3_recognizer :
    (∀ s : String,
      isFloatCell s = (float_re_is_match s && parseF64Ok s)) ∧
    (∀ s : String, (∀ c ∈ s.data, isExpMark c = false) →
      isFloatCell s = false) ∧
    isFloatCell "3.14" = false := by
  refine ⟨fun s => rfl, ?_, by decide⟩
  intro s h
  unfold isFloatCell float_re_is_match
  cases hm : hasMatch s.data with
  | false => rfl
  | true =>
      obtain ⟨c, hc, he⟩ := hasMatch_exp hm
      rw [h c hc] at he
      exact absurd he (by simp)

/-- Witness for C3: the plain decimal `"12.5"`, whose characters include
no exponent marker, is not classified as a float. -/
theorem c3_witness : isFloatCell "12.5" = false :=
  c3_recognizer.2.1 "12.5" (by decide)

theorem classifyCells_length {ps : List (String × String)} :
    ∀ {fc : List Bool} {i : Nat} {fc' : List Bool},
    classifyCells fc i ps = some fc' → fc'.length = fc.length := by
  induction ps with
  | nil =>
      intro fc i fc' h
      simp only [classifyCells] at h
      cases h
      rfl
  | cons p rest ih =>
      intro fc i fc' h
      simp only [classifyCells] at h
      cases hfc : fc.get? i with
      | none => rw [hfc] at h; exact absurd h (by simp)
      | some b =>
          rw [hfc] at h
          rw [ih h]
          split_ifs <;> simp [List.length_set]

theorem classifyCells_isSome {ps : List (String × String)} :
    ∀ {fc : List Bool} {i : Nat}, i + ps.length ≤ fc.length →
    ∃ fc', classifyCells fc i ps = some fc' := by
  induction ps with
  | nil => intro fc i h; exact ⟨fc, rfl⟩
  | cons p rest ih =>
      intro fc i h
      simp only [List.length_cons] at h
      have hi : i < fc.length := by omega
      have hb : fc.get? i = some (fc.get ⟨i, hi⟩) := List.get?_eq_get hi
      simp only [classifyCells, hb]
      apply ih
      have hlen :
          (if fc.get ⟨i, hi⟩ && !(isFloatCell p.1 && isFloatCell p.2) then
            fc.set i false
          else fc).length = fc.length := by
        split_ifs <;> simp [List.length_set]
      rw [hlen]
      omega

theorem classifyCells_mono_false {ps : List (String × String)} :
    ∀ {fc : List Bool} {i j : Nat} {fc' : List Bool},
    classifyCells fc i ps = some fc' → fc.get? j = some false →
    fc'.get? j = some false := by
  induction ps with
  | nil =>
      intro fc i j fc' h hj
      simp only [classifyCells] at h
      cases h
      exact hj
  | cons p rest ih =>
      intro fc i j fc' h hj
      simp only [classifyCells] at h
      cases hfc : fc.get? i with
      | none => rw [hfc] at h; exact absurd h (by simp)
      | some b =>
          rw [hfc] at h
          apply ih h
          split_ifs with hcond
          · by_cases hij : i = j
            · subst hij
              have hi : i < fc.length :=
                (List.get?_eq_some.mp hfc).1
              exact List.get?_set_eq_of_lt false hi
            · rw [List.get?_set_ne false fc hij]
              exact hj
          · exact hj

theorem classifyCells_true_cells {ps : List (String × String)} :
    ∀ {fc : List Bool} {i k : Nat} {fc' : List Bool} {p : String × String},
    classifyCells fc i ps = some fc' → ps.get? k = some p →
    fc'.get? (i + k) = some true →
    isFloatCell p.1 = true ∧ isFloatCell p.2 = true := by
  induction ps with
  | nil => intro fc i k fc' p h hget htrue; simp at hget
  | cons q rest ih =>
      intro fc i k fc' p h hget htrue
      simp only [classifyCells] at h
      cases hfc : fc.get? i with
      | none => rw [hfc] at h; exact absurd h (by simp)
      | some b =>
          rw [hfc] at h
          cases k with
          | zero =>
              simp only [List.get?] at hget
              cases hget
              rw [Nat.add_zero] at htrue
              have h' : classifyCells
                  (if (b && !(isFloatCell q.1 && isFloatCell q.2)) = true then
                    fc.set i false
                  else fc) (i + 1) rest = some fc' := h
              by_cases hcond :
                  (b && !(isFloatCell q.1 && isFloatCell q.2)) = true
              · rw [if_pos hcond] at h'
                have hi : i < fc.length := (List.get?_eq_some.mp hfc).1
                have hf := classifyCells_mono_false h'
                  (List.get?_set_eq_of_lt false hi)
                rw [hf] at htrue
                exact absurd htrue (by simp)
              · rw [if_neg hcond] at h'
                cases hb : b with
                | false =>
                    rw [hb] at hfc
                    have hf := classifyCells_mono_false h' hfc
                    rw [hf] at htrue
                    exact absurd htrue (by simp)
                | true =>
                    rw [hb] at hcond
                    simp only [Bool.true_and, Bool.not_eq_true',
                      Bool.not_eq_false] at hcond
                    exact Bool.and_eq_true_iff.mp hcond
          | succ kk =>
              simp only [List.get?] at hget
              have hidx : i + (kk + 1) = (i + 1) + kk := by omega
              rw [hidx] at htrue
              exact ih h hget htrue

theorem firstPassGo_some_length {ps : List (List String × List String)} :
    ∀ {l : List Bool} {line : Nat} {fc' : List Bool},
    firstPassGo (some l) line ps = .ok fc' → fc'.length = l.length := by
  induction ps with
  | nil =>
      intro l line fc' h
      simp only [firstPassGo, Option.getD] at h
      cases h
      rfl
  | cons rp rest ih =>
      intro l line fc' h
      simp only [firstPassGo] at h
      split_ifs at h with hlen
      cases hcl : classifyCells ((some l).getD
          (List.replicate rp.1.length true)) 0 (rp.1.zip rp.2) with
      | none => rw [hcl] at h; exact absurd h (by simp)
      | some fc1 =>
          rw [hcl] at h
          rw [ih h]
          have hc := classifyCells_length hcl
          simpa using hc

theorem firstPassGo_mono_false {ps : List (List String × List String)} :
    ∀ {l : List Bool} {line j : Nat} {fc' : List Bool},
    firstPassGo (some l) line ps = .ok fc' → l.get? j = some false →
    fc'.get? j = some false := by
  induction ps with
  | nil =>
      intro l line j fc' h hj
      simp only [firstPassGo, Option.getD] at h
      cases h
      exact hj
  | cons rp rest ih =>
      intro l line j fc' h hj
      simp only [firstPassGo] at h
      split_ifs at h with hlen
      cases hcl : classifyCells ((some l).getD
          (List.replicate rp.1.length true)) 0 (rp.1.zip rp.2) with
      | none => rw [hcl] at h; exact absurd h (by simp)
      | some fc1 =>
          rw [hcl] at h
          have hj1 : fc1.get? j = some false := by
            apply classifyCells_mono_false hcl
            simpa using hj
          exact ih h hj1

theorem firstPassGo_ok_lens {ps : List (List String × List String)} :
    ∀ {fc : Option (List Bool)} {line : Nat} {fc' : List Bool},
    firstPassGo fc line ps = .ok fc' →
    ∀ p ∈ ps, p.1.length = p.2.length := by
  induction ps with
  | nil => intro fc line fc' h p hp; simp at hp
  | cons rp rest ih =>
      intro fc line fc' h p hp
      simp only [firstPassGo] at h
      split_ifs at h with hlen
      cases hcl : classifyCells (fc.getD
          (List.replicate rp.1.length true)) 0 (rp.1.zip rp.2) with
      | none => rw [hcl] at h; exact absurd h (by simp)
      | some fc1 =>
          rw [hcl] at h
          rcases List.mem_cons.mp hp with hp | hp
          · subst hp; omega
          · exact ih h p hp

theorem firstPassGo_error_shape {ps : List (List String × List String)} :
    ∀ {fc : Option (List Bool)} {line : Nat} {e : DiffError},
    firstPassGo fc line ps = .error e →
    (∃ l a b, e = .cellCount l a b) ∨ (∃ l, e = .oobClassify l) := by
  induction ps with
  | nil => intro fc line e h; simp only [firstPassGo] at h; cases h
  | cons rp rest ih =>
      intro fc line e h
      simp only [firstPassGo] at h
      split_ifs at h with hlen
      · cases h
        exact Or.inl ⟨line, rp.1.length, rp.2.length, rfl⟩
      · cases hcl : classifyCells (fc.getD
            (List.replicate rp.1.length true)) 0 (rp.1.zip rp.2) with
        | none =>
            rw [hcl] at h
            cases h
            exact Or.inr ⟨line, rfl⟩
        | some fc1 =>
            rw [hcl] at h
            exact ih h

theorem firstPassGo_good {ps : List (List String × List String)} :
    ∀ {fc : Option (List Bool)} {line : Nat} {fc' : List Bool},
    firstPassGo fc line ps = .ok fc' →
    ∀ p ∈ ps, ∀ k c1 c2, fc'.get? k = some true →
    p.1.get? k = some c1 → p.2.get? k = some c2 →
    isFloatCell c1 = true ∧ isFloatCell c2 = true := by
  induction ps with
  | nil => intro fc line fc' h p hp; simp at hp
  | cons rp rest ih =>
      intro fc line fc' h p hp k c1 c2 htrue hc1 hc2
      simp only [firstPassGo] at h
      split_ifs at h with hlen
      cases hcl : classifyCells (fc.getD
          (List.replicate rp.1.length true)) 0 (rp.1.zip rp.2) with
      | none => rw [hcl] at h; exact absurd h (by simp)
      | some fc1 =>
          rw [hcl] at h
          rcases List.mem_cons.mp hp with hp | hp
          · subst hp
            have hlen1 : fc'.length = fc1.length := firstPassGo_some_length h
            have hk : k < fc1.length := by
              have := (List.get?_eq_some.mp htrue).1
              omega
            have hb1 : fc1.get? k = some (fc1.get ⟨k, hk⟩) :=
              List.get?_eq_get hk
            cases hb : fc1.get ⟨k, hk⟩ with
            | false =>
                rw [hb] at hb1
                have := firstPassGo_mono_false h hb1
                rw [this] at htrue
                exact absurd htrue (by simp)
            | true =>
                rw [hb] at hb1
                have hzip : (p.1.zip p.2).get? k = some (c1, c2) :=
                  (List.get?_zip_eq_some p.1 p.2 (c1, c2) k).mpr ⟨hc1, hc2⟩
                have := classifyCells_true_cells hcl hzip
                  (by simpa using hb1)
                exact this
          · exact ih h p hp k c1 c2 htrue hc1 hc2

theorem extractCells_cons_none {fc : List Bool} {i : Nat}
    (pv : String → F64) (f line : Nat) (c : String) (rest : List String)
    (h : fc.get? i = none) :
    extractCells fc pv f line i (c :: rest) =
      .error (.oobExtract f line) := by
  simp only [extractCells, h]

theorem extractCells_cons_some {fc : List Bool} {i : Nat} {b : Bool}
    (pv : String → F64) (f line : Nat) (c : String) (rest : List String)
    (h : fc.get? i = some b) :
    extractCells fc pv f line i (c :: rest) =
      (if (b && float_re_is_match c) = true then
        (if parseF64Ok c = true then
          Except.bind (extractCells fc pv f line (i + 1) rest)
            (fun vs => .ok ((i, pv c) :: vs))
        else .error (.parseError f c line))
      else extractCells fc pv f line (i + 1) rest) := by
  simp only [extractCells, h]
  rfl

theorem extractCells_file_irrelevant {fc : List Bool} {pv : String → F64}
    {line : Nat} :
    ∀ {r : List String} {i : Nat} {f f' : Nat} {out : List (Nat × F64)},
    extractCells fc pv f line i r = .ok out →
    extractCells fc pv f' line i r = .ok out := by
  intro r
  induction r with
  | nil =>
      intro i f f' out h
      simpa [extractCells] using h
  | cons c rest ih =>
      intro i f f' out h
      cases hfc : fc.get? i with
      | none =>
          rw [extractCells_cons_none pv f line c rest hfc] at h
          exact absurd h (by simp)
      | some b =>
          rw [extractCells_cons_some pv f line c rest hfc] at h
          rw [extractCells_cons_some pv f' line c rest hfc]
          by_cases hsel : (b && float_re_is_match c) = true
          · rw [if_pos hsel] at h ⊢
            by_cases hp : parseF64Ok c = true
            · rw [if_pos hp] at h ⊢
              cases hrec : extractCells fc pv f line (i + 1) rest with
              | error e =>
                  rw [hrec] at h
                  simp [Except.bind] at h
              | ok vs =>
                  rw [hrec] at h
                  simp only [Except.bind] at h
                  rw [ih hrec]
                  simpa [Except.bind] using h
            · rw [if_neg hp] at h
              exact absurd h (by simp)
          · rw [if_neg hsel] at h ⊢
            exact ih h

theorem extractCells_excluded {fc : List Bool} {pv : String → F64}
    {f line : Nat} {j : Nat} (hj : fc.get? j = some false) :
    ∀ {r : List String} {i : Nat} {out : List (Nat × F64)},
    extractCells fc pv f line i r = .ok out → ∀ v, (j, v) ∉ out := by
  intro r
  induction r with
  | nil =>
      intro i out h v
      simp only [extractCells] at h
      cases h
      simp
  | cons c rest ih =>
      intro i out h v
      cases hfc : fc.get? i with
      | none =>
          rw [extractCells_cons_none pv f line c rest hfc] at h
          exact absurd h (by simp)
      | some b =>
          rw [extractCells_cons_some pv f line c rest hfc] at h
          by_cases hsel : (b && float_re_is_match c) = true
          · rw [if_pos hsel] at h
            by_cases hp : parseF64Ok c = true
            · rw [if_pos hp] at h
              cases hrec : extractCells fc pv f line (i + 1) rest with
              | error e =>
                  rw [hrec] at h
                  simp [Except.bind] at h
              | ok vs =>
                  rw [hrec] at h
                  simp only [Except.bind] at h
                  cases h
                  intro hmem
                  rcases List.mem_cons.mp hmem with hmem | hmem
                  · have hji : j = i := by
                      have := Prod.mk.injEq j v i (pv c) ▸ hmem
                      exact (Prod.mk.injEq j v i (pv c) ▸ hmem).1
                    subst hji
                    rw [hj] at hfc
                    cases hfc
                    simp at hsel
                  · exact ih hrec v hmem
            · rw [if_neg hp] at h
              exact absurd h (by simp)
          · rw [if_neg hsel] at h
            exact ih h v

theorem extractCells_no_oob {fc : List Bool} {pv : String → F64}
    {f line : Nat} :
    ∀ {r : List String} {i : Nat}, i + r.length ≤ fc.length →
    ∀ f' l', extractCells fc pv f line i r ≠ .error (.oobExtract f' l') := by
  intro r
  induction r with
  | nil =>
      intro i hcap f' l' h
      simp [extractCells] at h
  | cons c rest ih =>
      intro i hcap f' l' h
      simp only [List.length_cons] at hcap
      have hi : i < fc.length := by omega
      have hfc : fc.get? i = some (fc.get ⟨i, hi⟩) := List.get?_eq_get hi
      rw [extractCells_cons_some pv f line c rest hfc] at h
      by_cases hsel : (fc.get ⟨i, hi⟩ && float_re_is_match c) = true
      · rw [if_pos hsel] at h
        by_cases hp : parseF64Ok c = true
        · rw [if_pos hp] at h
          cases hrec : extractCells fc pv f line (i + 1) rest with
          | error e =>
              rw [hrec] at h
              simp only [Except.bind] at h
              cases h
              exact ih (by omega) f' l' hrec
          | ok vs =>
              rw [hrec] at h
              simp [Except.bind] at h
        · rw [if_neg hp] at h
          exact absurd h (by simp)
      · rw [if_neg hsel] at h
        exact ih (by omega) f' l' h

theorem extractCells_pair {fc : List Bool} (pv : String → F64)
    (line : Nat) :
    ∀ {r1 r2 : List String} {i : Nat},
    r1.length = r2.length →
    (∀ k c1 c2, fc.get? (i + k) = some true → r1.get? k = some c1 →
      r2.get? k = some c2 →
      isFloatCell c1 = true ∧ isFloatCell c2 = true) →
    (∃ out1 out2, extractCells fc pv 1 line i r1 = .ok out1 ∧
      extractCells fc pv 2 line i r2 = .ok out2 ∧
      out1.length = out2.length) ∨
    (∃ l', extractCells fc pv 1 line i r1 = .error (.oobExtract 1 l') ∧
      extractCells fc pv 2 line i r2 = .error (.oobExtract 2 l')) := by
  intro r1
  induction r1 with
  | nil =>
      intro r2 i hlen hgood
      cases r2 with
      | nil => exact Or.inl ⟨[], [], rfl, rfl, rfl⟩
      | cons c2 r2t => simp at hlen
  | cons c1 r1t ih =>
      intro r2 i hlen hgood
      cases r2 with
      | nil => simp at hlen
      | cons c2 r2t =>
          simp only [List.length_cons] at hlen
          have hlen2 : r1t.length = r2t.length := by omega
          have hgood2 : ∀ k c1a c2a, fc.get? (i + 1 + k) = some true →
              r1t.get? k = some c1a → r2t.get? k = some c2a →
              isFloatCell c1a = true ∧ isFloatCell c2a = true := by
            intro k c1a c2a ht h1 h2
            have hidx : i + 1 + k = i + (k + 1) := by omega
            rw [hidx] at ht
            exact hgood (k + 1) c1a c2a ht h1 h2
          cases hfc : fc.get? i with
          | none =>
              refine Or.inr ⟨line, ?_, ?_⟩
              · rw [extractCells_cons_none pv 1 line c1 r1t hfc]
              · rw [extractCells_cons_none pv 2 line c2 r2t hfc]
          | some b =>
              cases hb : b with
              | false =>
                  subst hb
                  rw [extractCells_cons_some pv 1 line c1 r1t hfc,
                    extractCells_cons_some pv 2 line c2 r2t hfc]
                  simp only [Bool.false_and, Bool.false_eq_true, if_false]
                  exact ih hlen2 hgood2
              | true =>
                  subst hb
                  have hft := hgood 0 c1 c2 (by simpa using hfc) rfl rfl
                  have hre1 : float_re_is_match c1 = true :=
                    (Bool.and_eq_true_iff.mp hft.1).1
                  have hpa1 : parseF64Ok c1 = true :=
                    (Bool.and_eq_true_iff.mp hft.1).2
                  have hre2 : float_re_is_match c2 = true :=
                    (Bool.and_eq_true_iff.mp hft.2).1
                  have hpa2 : parseF64Ok c2 = true :=
                    (Bool.and_eq_true_iff.mp hft.2).2
                  rw [extractCells_cons_some pv 1 line c1 r1t hfc,
                    extractCells_cons_some pv 2 line c2 r2t hfc]
                  rw [if_pos (by simp [hre1]), if_pos hpa1,
                    if_pos (by simp [hre2]), if_pos hpa2]
                  rcases ih hlen2 hgood2 with
                    ⟨o1, o2, ho1, ho2, hol⟩ | ⟨l', h1, h2⟩
                  · rw [ho1, ho2]
                    refine Or.inl ⟨(i, pv c1) :: o1, (i, pv c2) :: o2,
                      rfl, rfl, ?_⟩
                    simp [hol]
                  · rw [h1, h2]
                    exact Or.inr ⟨l', rfl, rfl⟩

theorem comparePass_cons (fc : List Bool) (pv : String → F64) (t : F64)
    (line : Nat) (rp : List String × List String)
    (rest : List (List String × List String)) (st : DiffState) :
    comparePass fc pv t line (rp :: rest) st =
      Except.bind (extractCells fc pv 1 line 0 rp.1) (fun f1 =>
        Except.bind (extractCells fc pv 2 line 0 rp.2) (fun f2 =>
          if (f1.isEmpty && f2.isEmpty) = true then
            comparePass fc pv t (line + 1) rest st
          else if f1.length ≠ f2.length then .error (.floatLayout line)
          else
            comparePass fc pv t (line + 1) rest
              (foldPairs t line st
                ((f1.zip f2).map (fun q => (q.1.2, q.2.2)))))) := rfl

theorem extractCells_error_shape {fc : List Bool} {pv : String → F64}
    {f line : Nat} :
    ∀ {r : List String} {i : Nat} {e : DiffError},
    extractCells fc pv f line i r = .error e →
    (∃ f' l', e = .oobExtract f' l') ∨ (∃ f' c l', e = .parseError f' c l') := by
  intro r
  induction r with
  | nil =>
      intro i e h
      simp [extractCells] at h
  | cons c rest ih =>
      intro i e h
      cases hfc : fc.get? i with
      | none =>
          rw [extractCells_cons_none pv f line c rest hfc] at h
          cases h
          exact Or.inl ⟨f, line, rfl⟩
      | some b =>
          rw [extractCells_cons_some pv f line c rest hfc] at h
          by_cases hsel : (b && float_re_is_match c) = true
          · rw [if_pos hsel] at h
            by_cases hp : parseF64Ok c = true
            · rw [if_pos hp] at h
              cases hrec : extractCells fc pv f line (i + 1) rest with
              | error e1 =>
                  rw [hrec] at h
                  simp only [Except.bind] at h
                  cases h
                  exact ih hrec
              | ok vs =>
                  rw [hrec] at h
                  simp [Except.bind] at h
            · rw [if_neg hp] at h
              cases h
              exact Or.inr ⟨f, c, line, rfl⟩
          · rw [if_neg hsel] at h
            exact ih h

theorem comparePass_no_layout_parse {fc : List Bool} {pv : String → F64}
    {t : F64} :
    ∀ {ps : List (List String × List String)} {line : Nat} {st : DiffState},
    (∀ p ∈ ps, p.1.length = p.2.length) →
    (∀ p ∈ ps, ∀ k c1 c2, fc.get? k = some true → p.1.get? k = some c1 →
      p.2.get? k = some c2 →
      isFloatCell c1 = true ∧ isFloatCell c2 = true) →
    (∀ l, comparePass fc pv t line ps st ≠ .error (.floatLayout l)) ∧
    (∀ f c l, comparePass fc pv t line ps st ≠ .error (.parseError f c l)) := by
  intro ps
  induction ps with
  | nil =>
      intro line st hlens hgood
      constructor
      · intro l h
        simp [comparePass] at h
      · intro f c l h
        simp [comparePass] at h
  | cons rp rest ih =>
      intro line st hlens hgood
      have hgood0 : ∀ k c1 c2, fc.get? (0 + k) = some true →
          rp.1.get? k = some c1 → rp.2.get? k = some c2 →
          isFloatCell c1 = true ∧ isFloatCell c2 = true := by
        intro k c1 c2 ht h1 h2
        rw [Nat.zero_add] at ht
        exact hgood rp (List.mem_cons_self rp rest) k c1 c2 ht h1 h2
      have hpair := extractCells_pair pv line
        (hlens rp (List.mem_cons_self rp rest)) hgood0
      have hlens' := fun p hp => hlens p (List.mem_cons_of_mem rp hp)
      have hgood' := fun p hp => hgood p (List.mem_cons_of_mem rp hp)
      rcases hpair with ⟨o1, o2, ho1, ho2, hol⟩ | ⟨l', h1, h2⟩
      · rw [comparePass_cons, ho1, ho2]
        simp only [Except.bind]
        split_ifs with hc1 hc2
        · exact ih hlens' hgood'
        · exact absurd hol hc2
        · exact ih hlens' hgood'
      · rw [comparePass_cons, h1]
        simp only [Except.bind]
        constructor
        · intro l h
          exact absurd h (by simp)
        · intro f c l h
          exact absurd h (by simp)

theorem firstPass_error_shape {r1 r2 : List (List String)} {e : DiffError}
    (h : firstPass r1 r2 = .error e) :
    (∃ a b, e = .rowCount a b) ∨ (∃ l a b, e = .cellCount l a b) ∨
    (∃ l, e = .oobClassify l) := by
  simp only [firstPass] at h
  split_ifs at h with hlen
  · cases h
    exact Or.inl ⟨r1.length, r2.length, rfl⟩
  · rcases firstPassGo_error_shape h with h1 | h1
    · exact Or.inr (Or.inl h1)
    · exact Or.inr (Or.inr h1)

theorem firstPass_ok_go {r1 r2 : List (List String)} {fc : List Bool}
    (h : firstPass r1 r2 = .ok fc) :
    firstPassGo none 1 (r1.zip r2) = .ok fc := by
  simp only [firstPass] at h
  split_ifs at h with hlen
  exact h

theorem run_eq (pv : String → F64) (t : F64) (r1 r2 : List (List String)) :
    run pv t r1 r2 =
      Except.bind (firstPass r1 r2)
        (fun fc => comparePass fc pv t 1 (r1.zip r2) initState) := rfl

/-- C7: the two defensive fatal branches of the second pass are
unreachable for every input: the run never fails with the "float layout
differs" error (the per-row extracted value counts always agree between
the two files), and never fails with the second-pass parse error (every
cell the second pass selects from a classified float column parses
successfully).  This holds unconditionally, hence in particular for
inputs passing the shape checks. -/
theorem c7_defensive_aborts_unreachable :
    ∀ (pv : String → F64) (t : F64) (r1 r2 : List (List String)),
      (∀ l, run pv t r1 r2 ≠ .error (.floatLayout l)) ∧
      (∀ f c l, run pv t r1 r2 ≠ .error (.parseError f c l)) := by
  intro pv t r1 r2
  rw [run_eq]
  cases hfp : firstPass r1 r2 with
  | error e =>
      simp only [Except.bind]
      rcases firstPass_error_shape hfp with ⟨a, b, he⟩ | ⟨l, a, b, he⟩ |
        ⟨l, he⟩ <;> subst he <;>
        exact ⟨fun l h => by simp at h, fun f c l h => by simp at h⟩
  | ok fc =>
      simp only [Except.bind]
      have hgo := firstPass_ok_go hfp
      exact comparePass_no_layout_parse (firstPassGo_ok_lens hgo)
        (firstPassGo_good hgo)

/-- Witness for C7: on a concrete well-formed one-cell file pair the run
does not fail with the "float layout differs" defensive abort. -/
theorem c7_witness :
    run (fun _ => F64.fin 1) (.fin 0) [["1e0"]] [["2e0"]] ≠
      .error (.floatLayout 1) :=
  (c7_defensive_aborts_unreachable (fun _ => F64.fin 1) (.fin 0)
    [["1e0"]] [["2e0"]]).1 1

/-- C4: column classification is monotone and permanent.  The first row
pair starts every column classified as float (`replicate len true`); the
per-row column loop never turns a cleared flag back on; a flag cleared
before any later row stays cleared through all later rows; and a cleared
column contributes no value to the second-pass extraction of any row. -/
theorem c4_column_classification_permanent :
    (∀ (rp : List String × List String)
      (rest : List (List String × List String)) (line : Nat),
      firstPassGo none line (rp :: rest) =
        (if rp.1.length ≠ rp.2.length then
          .error (.cellCount line rp.1.length rp.2.length)
        else
          match classifyCells (List.replicate rp.1.length true) 0
              (rp.1.zip rp.2) with
          | none => .error (.oobClassify line)
          | some fc1 => firstPassGo (some fc1) (line + 1) rest)) ∧
    (∀ (fc : List Bool) (i j : Nat) (ps : List (String × String))
      (fc' : List Bool), classifyCells fc i ps = some fc' →
      fc.get? j = some false → fc'.get? j = some false) ∧
    (∀ (l : List Bool) (line j : Nat)
      (ps : List (List String × List String)) (fc' : List Bool),
      firstPassGo (some l) line ps = .ok fc' → l.get? j = some false →
      fc'.get? j = some false) ∧
    (∀ (fc : List Bool) (pv : String → F64) (f line j : Nat)
      (r : List String) (out : List (Nat × F64)),
      fc.get? j = some false → extractCells fc pv f line 0 r = .ok out →
      ∀ v, (j, v) ∉ out) := by
  refine ⟨fun rp rest line => rfl, ?_, ?_, ?_⟩
  · intro fc i j ps fc' h hj
    exact classifyCells_mono_false h hj
  · intro l line j ps fc' h hj
    exact firstPassGo_mono_false h hj
  · intro fc pv f line j r out hj h v
    exact extractCells_excluded hj h v

/-- Witness for C4: a column flag cleared before a later row pair is
still cleared after that row, and a cleared column yields no extracted
value. -/
theorem c4_witness :
    (([false] : List Bool).get? 0 = some false) ∧
    ((0, F64.fin 1) ∉ ([] : List (Nat × F64))) :=
  ⟨c4_column_classification_permanent.2.2.1 [false] 1 0
      [(["1e0"], ["2e0"])] [false] (by decide) (by decide),
   c4_column_classification_permanent.2.2.2 [false] (fun _ => F64.fin 1)
      1 1 0 ["1e0"] [] (by decide) (by decide) (F64.fin 1)⟩

theorem firstPassGo_cellCount_at {ps : List (List String × List String)} :
    ∀ {j : Nat} {l : List Bool} {line : Nat}
    {pj : List String × List String},
    ps.get? j = some pj →
    (∀ k, k < j → ∀ p, ps.get? k = some p →
      p.1.length = p.2.length ∧ p.1.length ≤ l.length) →
    pj.1.length ≠ pj.2.length →
    firstPassGo (some l) line ps =
      .error (.cellCount (line + j) pj.1.length pj.2.length) := by
  induction ps with
  | nil => intro j l line pj hj hbefore hmis; simp at hj
  | cons rp rest ih =>
      intro j l line pj hj hbefore hmis
      cases j with
      | zero =>
          simp only [List.get?] at hj
          cases hj
          simp only [firstPassGo, if_pos hmis, Nat.add_zero]
      | succ jj =>
          simp only [List.get?] at hj
          have h0 := hbefore 0 (Nat.succ_pos jj) rp rfl
          simp only [firstPassGo, if_neg (by omega : ¬rp.1.length ≠ rp.2.length)]
          have hcap : 0 + (rp.1.zip rp.2).length ≤
              ((some l).getD (List.replicate rp.1.length true)).length := by
            simp only [Option.getD, List.length_zip]
            omega
          obtain ⟨fc1, hcl⟩ := classifyCells_isSome hcap
          rw [hcl]
          have hlen1 : fc1.length = l.length := by
            have := classifyCells_length hcl
            simpa using this
          have hbefore' : ∀ k, k < jj → ∀ p, rest.get? k = some p →
              p.1.length = p.2.length ∧ p.1.length ≤ fc1.length := by
            intro k hk p hp
            have := hbefore (k + 1) (by omega) p hp
            omega
          have heq : line + (jj + 1) = line + 1 + jj := by omega
          rw [heq]
          exact ih hj hbefore' hmis

/-- C9: a row-count mismatch between the two files is reported as a
fatal error (with both counts) before any comparison, and a cell-count
mismatch is reported as a fatal error with the 1-indexed line number of
the first mismatching row pair and both cell counts.  The error value
models `process::exit(1)` after the diagnostic: no comparison state and
no stdout report is produced.  The rectangularity hypothesis on the
first file (every row has the same width) is guaranteed by the CSV
reader, which rejects ragged files before this code runs. -/
theorem c9_shape_errors :
    (∀ (pv : String → F64) (t : F64) (r1 r2 : List (List String)),
      r1.length ≠ r2.length →
      run pv t r1 r2 = .error (.rowCount r1.length r2.length)) ∧
    (∀ (pv : String → F64) (t : F64) (r1 r2 : List (List String))
      (j : Nat) (row1 row2 : List String) (w1 : Nat),
      r1.length = r2.length →
      (∀ l ∈ r1, l.length = w1) →
      r1.get? j = some row1 → r2.get? j = some row2 →
      (∀ k, k < j → ∀ u v, r1.get? k = some u → r2.get? k = some v →
        u.length = v.length) →
      row1.length ≠ row2.length →
      run pv t r1 r2 =
        .error (.cellCount (j + 1) row1.length row2.length)) := by
  constructor
  · intro pv t r1 r2 h
    rw [run_eq]
    simp only [firstPass, if_pos h]
    rfl
  · intro pv t r1 r2 j row1 row2 w1 hlen hrect hj1 hj2 hbefore hmis
    rw [run_eq]
    have hfp : firstPass r1 r2 = firstPassGo none 1 (r1.zip r2) := by
      simp only [firstPass, if_neg (by omega : ¬r1.length ≠ r2.length)]
    rw [hfp]
    cases r1 with
    | nil => simp at hj1
    | cons a r1t =>
        cases r2 with
        | nil => simp at hlen
        | cons b r2t =>
            have hzip : (a :: r1t).zip (b :: r2t) =
                (a, b) :: r1t.zip r2t := rfl
            rw [hzip]
            cases j with
            | zero =>
                simp only [List.get?] at hj1 hj2
                cases hj1
                cases hj2
                have hgo : firstPassGo none 1 ((row1, row2) :: r1t.zip r2t) =
                    .error (.cellCount 1 row1.length row2.length) := by
                  simp only [firstPassGo, if_pos hmis]
                rw [hgo]
                rfl
            | succ jj =>
                simp only [List.get?] at hj1 hj2
                have h0 : a.length = b.length :=
                  hbefore 0 (Nat.succ_pos jj) a b rfl rfl
                have haw : a.length = w1 :=
                  hrect a (List.mem_cons_self a r1t)
                have hcap : 0 + (a.zip b).length ≤
                    ((none : Option (List Bool)).getD
                      (List.replicate a.length true)).length := by
                  simp only [Option.getD, List.length_zip,
                    List.length_replicate]
                  omega
                obtain ⟨fc1, hcl⟩ := classifyCells_isSome hcap
                have hlen1 : fc1.length = a.length := by
                  have := classifyCells_length hcl
                  simpa using this
                have hgo : firstPassGo none 1 ((a, b) :: r1t.zip r2t) =
                    .error (.cellCount (2 + jj) row1.length row2.length) := by
                  simp only [firstPassGo, if_neg (by omega :
                    ¬a.length ≠ b.length)]
                  rw [hcl]
                  show firstPassGo (some fc1) (1 + 1) (r1t.zip r2t) =
                    .error (.cellCount (2 + jj) row1.length row2.length)
                  have heq2 : (2 : Nat) + jj = 1 + 1 + jj := by omega
                  rw [heq2]
                  have hget : (r1t.zip r2t).get? jj = some (row1, row2) :=
                    (List.get?_zip_eq_some r1t r2t (row1, row2)
                      jj).mpr ⟨hj1, hj2⟩
                  have hbef : ∀ k, k < jj →
                      ∀ p : List String × List String,
                      (r1t.zip r2t).get? k = some p →
                      p.1.length = p.2.length ∧ p.1.length ≤ fc1.length := by
                    intro k hk p hp
                    obtain ⟨hp1, hp2⟩ :=
                      (List.get?_zip_eq_some r1t r2t p k).mp hp
                    have hpe : p.1.length = p.2.length :=
                      hbefore (k + 1) (by omega) p.1 p.2 hp1 hp2
                    have hpw : p.1.length = w1 :=
                      hrect p.1 (List.mem_cons_of_mem a
                        (List.get?_mem hp1))
                    omega
                  exact firstPassGo_cellCount_at hget hbef hmis
                rw [hgo]
                have : (2 : Nat) + jj = jj + 1 + 1 := by omega
                rw [this]
                rfl

/-- Witness for C9: a pair with two rows versus one row fails with the
row-count error, and a rectangular pair whose second row pair has cell
counts 1 versus 2 fails with the cell-count error at line 2. -/
theorem c9_witness :
    run (fun _ => F64.fin 1) (.fin 0) [["a"], ["b"]] [["c"]] =
      .error (.rowCount 2 1) ∧
    run (fun _ => F64.fin 1) (.fin 0) [["a"], ["b"]] [["a"], ["b", "c"]] =
      .error (.cellCount 2 1 2) :=
  ⟨c9_shape_errors.1 (fun _ => F64.fin 1) (.fin 0) [["a"], ["b"]] [["c"]]
      (by decide),
   c9_shape_errors.2 (fun _ => F64.fin 1) (.fin 0) [["a"], ["b"]]
      [["a"], ["b", "c"]] 1 ["b"] ["b", "c"] 1 (by decide) (by decide)
      (by decide) (by decide)
      (by
        intro k hk u v hu hv
        have hk0 : k = 0 := by omega
        subst hk0
        simp only [List.get?] at hu hv
        cases hu
        cases hv
        rfl)
      (by decide)⟩

theorem firstPassGo_no_oobClassify {w1 : Nat} :
    ∀ {ps : List (List String × List String)} {fc : Option (List Bool)}
    {line : Nat},
    (∀ p ∈ ps, p.1.length = w1) →
    (∀ l, fc = some l → l.length = w1) →
    ∀ l', firstPassGo fc line ps ≠ .error (.oobClassify l') := by
  intro ps
  induction ps with
  | nil =>
      intro fc line hrect hfc l' h
      simp [firstPassGo] at h
  | cons rp rest ih =>
      intro fc line hrect hfc l' h
      simp only [firstPassGo] at h
      split_ifs at h with hlen
      · cases h
      · have hfc0 : (fc.getD (List.replicate rp.1.length true)).length =
            w1 := by
          cases fc with
          | none =>
              simp [List.length_replicate,
                hrect rp (List.mem_cons_self rp rest)]
          | some l => simp [hfc l rfl]
        have hcap : 0 + (rp.1.zip rp.2).length ≤
            (fc.getD (List.replicate rp.1.length true)).length := by
          rw [hfc0, List.length_zip]
          have := hrect rp (List.mem_cons_self rp rest)
          omega
        obtain ⟨fc1, hcl⟩ := classifyCells_isSome hcap
        rw [hcl] at h
        have hfc1 : fc1.length = w1 := by
          rw [classifyCells_length hcl, hfc0]
        exact ih (fun p hp => hrect p (List.mem_cons_of_mem rp hp))
          (fun l hl => by cases hl; exact hfc1) l' h

theorem firstPassGo_ok_caps {w1 : Nat} :
    ∀ {ps : List (List String × List String)} {fc : Option (List Bool)}
    {line : Nat} {fc' : List Bool},
    firstPassGo fc line ps = .ok fc' →
    (∀ p ∈ ps, p.1.length = w1) →
    (∀ l, fc = some l → l.length = w1) →
    ∀ p ∈ ps, p.1.length ≤ fc'.length := by
  intro ps
  induction ps with
  | nil => intro fc line fc' h hrect hfc p hp; simp at hp
  | cons rp rest ih =>
      intro fc line fc' h hrect hfc p hp
      simp only [firstPassGo] at h
      split_ifs at h with hlen
      cases hcl : classifyCells (fc.getD
          (List.replicate rp.1.length true)) 0 (rp.1.zip rp.2) with
      | none => rw [hcl] at h; exact absurd h (by simp)
      | some fc1 =>
          rw [hcl] at h
          have hfc0 : (fc.getD (List.replicate rp.1.length true)).length =
              w1 := by
            cases fc with
            | none =>
                simp [List.length_replicate,
                  hrect rp (List.mem_cons_self rp rest)]
            | some l => simp [hfc l rfl]
          have hfc1 : fc1.length = w1 := by
            rw [classifyCells_length hcl, hfc0]
          have hlen' : fc'.length = w1 := by
            rw [firstPassGo_some_length h, hfc1]
          have hw : p.1.length = w1 := hrect p hp
          omega

theorem comparePass_error_shape {fc : List Bool} {pv : String → F64}
    {t : F64} :
    ∀ {ps : List (List String × List String)} {line : Nat} {st : DiffState}
    {e : DiffError}, comparePass fc pv t line ps st = .error e →
    (∃ l, e = .floatLayout l) ∨ (∃ f l, e = .oobExtract f l) ∨
    (∃ f c l, e = .parseError f c l) := by
  intro ps
  induction ps with
  | nil => intro line st e h; simp [comparePass] at h
  | cons rp rest ih =>
      intro line st e h
      rw [comparePass_cons] at h
      cases hex1 : extractCells fc pv 1 line 0 rp.1 with
      | error e1 =>
          rw [hex1] at h
          simp only [Except.bind] at h
          cases h
          rcases extractCells_error_shape hex1 with ⟨f', l', he⟩ |
            ⟨f', c, l', he⟩
          · exact Or.inr (Or.inl ⟨f', l', he⟩)
          · exact Or.inr (Or.inr ⟨f', c, l', he⟩)
      | ok f1 =>
          rw [hex1] at h
          simp only [Except.bind] at h
          cases hex2 : extractCells fc pv 2 line 0 rp.2 with
          | error e2 =>
              rw [hex2] at h
              simp only [Except.bind] at h
              cases h
              rcases extractCells_error_shape hex2 with ⟨f', l', he⟩ |
                ⟨f', c, l', he⟩
              · exact Or.inr (Or.inl ⟨f', l', he⟩)
              · exact Or.inr (Or.inr ⟨f', c, l', he⟩)
          | ok f2 =>
              rw [hex2] at h
              simp only [Except.bind] at h
              split_ifs at h with hc1 hc2
              · exact ih h
              · cases h
                exact Or.inl ⟨line, rfl⟩
              · exact ih h

theorem comparePass_no_oobExtract {fc : List Bool} {pv : String → F64}
    {t : F64} :
    ∀ {ps : List (List String × List String)} {line : Nat} {st : DiffState},
    (∀ p ∈ ps, p.1.length ≤ fc.length ∧ p.2.length ≤ fc.length) →
    ∀ f l, comparePass fc pv t line ps st ≠ .error (.oobExtract f l) := by
  intro ps
  induction ps with
  | nil => intro line st hcap f l h; simp [comparePass] at h
  | cons rp rest ih =>
      intro line st hcap f l h
      have hrp := hcap rp (List.mem_cons_self rp rest)
      have hcap' := fun p hp => hcap p (List.mem_cons_of_mem rp hp)
      rw [comparePass_cons] at h
      cases hex1 : extractCells fc pv 1 line 0 rp.1 with
      | error e1 =>
          rw [hex1] at h
          simp only [Except.bind] at h
          cases h
          exact extractCells_no_oob (by omega) f l hex1
      | ok f1 =>
          rw [hex1] at h
          simp only [Except.bind] at h
          cases hex2 : extractCells fc pv 2 line 0 rp.2 with
          | error e2 =>
              rw [hex2] at h
              simp only [Except.bind] at h
              cases h
              exact extractCells_no_oob (by omega) f l hex2
          | ok f2 =>
              rw [hex2] at h
              simp only [Except.bind] at h
              split_ifs at h with hc1 hc2
              · exact ih hcap' f l h
              · simp at h
              · exact ih hcap' f l h

/-- Counterexample for C10: this file pair passes the claim's shape
checks (equal row counts, and per row pair equal cell counts: 1 = 1 and
2 = 2) yet the first-pass classifier reads `float_cols[1]` out of
bounds on the second row pair, because the float-column vector's length
was fixed to 1 by the first row pair: the out-of-bounds branch is
reachable under the claim's stated precondition.  (The real program
never receives such input only because the CSV reader rejects ragged
files.) -/
theorem c10_counterexample :
    ([["1e0"], ["2e0", "3e0"]] : List (List String)).length =
      ([["4e0"], ["5e0", "6e0"]] : List (List String)).length ∧
    ([["1e0"], ["2e0", "3e0"]] : List (List String)).map List.length =
      ([["4e0"], ["5e0", "6e0"]] : List (List String)).map List.length ∧
    run (fun _ => F64.fin 1) (.fin 0) [["1e0"], ["2e0", "3e0"]]
      [["4e0"], ["5e0", "6e0"]] = .error (.oobClassify 2) := by
  refine ⟨rfl, rfl, ?_⟩
  decide

/-- C10 (amended): when each input file is rectangular (every row of a
file has that file's common width, which the CSV reader guarantees by
rejecting ragged files), every `float_cols[i]` access of the first-pass
classifier and of the second-pass extractor is in bounds: the run never
fails with either modelled out-of-bounds panic. -/
theorem c10_inbounds_when_rectangular :
    ∀ (pv : String → F64) (t : F64) (r1 r2 : List (List String))
      (w1 w2 : Nat),
      (∀ l ∈ r1, l.length = w1) → (∀ l ∈ r2, l.length = w2) →
      (∀ line, run pv t r1 r2 ≠ .error (.oobClassify line)) ∧
      (∀ f line, run pv t r1 r2 ≠ .error (.oobExtract f line)) := by
  intro pv t r1 r2 w1 w2 h1 h2
  have hrectzip : ∀ p ∈ r1.zip r2, p.1.length = w1 := by
    intro p hp
    exact h1 p.1 (List.of_mem_zip hp).1
  constructor
  · intro line heq
    rw [run_eq] at heq
    cases hfp : firstPass r1 r2 with
    | error e =>
        rw [hfp] at heq
        simp only [Except.bind] at heq
        cases heq
        simp only [firstPass] at hfp
        split_ifs at hfp with hlen
        · cases hfp
        · exact firstPassGo_no_oobClassify hrectzip
            (fun l hl => by cases hl) line hfp
    | ok fc =>
        rw [hfp] at heq
        simp only [Except.bind] at heq
        rcases comparePass_error_shape heq with ⟨l, he⟩ | ⟨f, l, he⟩ |
          ⟨f, c, l, he⟩ <;> cases he
  · intro f line heq
    rw [run_eq] at heq
    cases hfp : firstPass r1 r2 with
    | error e =>
        rw [hfp] at heq
        simp only [Except.bind] at heq
        cases heq
        rcases firstPass_error_shape hfp with ⟨a, b, he⟩ | ⟨l, a, b, he⟩ |
          ⟨l, he⟩ <;> cases he
    | ok fc =>
        rw [hfp] at heq
        simp only [Except.bind] at heq
        have hgo := firstPass_ok_go hfp
        have hcaps : ∀ p ∈ r1.zip r2,
            p.1.length ≤ fc.length ∧ p.2.length ≤ fc.length := by
          intro p hp
          have hc1 := firstPassGo_ok_caps hgo hrectzip
            (fun l hl => by cases hl) p hp
          have hc2 := firstPassGo_ok_lens hgo p hp
          omega
        exact comparePass_no_oobExtract hcaps f line heq

/-- Witness for C10 (amended): a rectangular concrete file pair
(widths 1 and 1) never hits the out-of-bounds branches. -/
theorem c10_witness :
    run (fun _ => F64.fin 1) (.fin 0) [["1e0"]] [["x"]] ≠
      .error (.oobClassify 1) :=
  (c10_inbounds_when_rectangular (fun _ => F64.fin 1) (.fin 0)
    [["1e0"]] [["x"]] 1 1 (by decide) (by decide)).1 1

theorem fmax_comm (a b : F64) : F64.fmax a b = F64.fmax b a := by
  cases a with
  | nan => cases b <;> simp [F64.fmax, F64.isNan]
  | inf s =>
      cases b with
      | nan => simp [F64.fmax, F64.isNan]
      | inf t => cases s <;> cases t <;> simp [F64.fmax, F64.flt, F64.isNan]
      | fin q => cases s <;> simp [F64.fmax, F64.flt, F64.isNan]
  | fin a =>
      cases b with
      | nan => simp [F64.fmax, F64.isNan]
      | inf t => cases t <;> simp [F64.fmax, F64.flt, F64.isNan]
      | fin b =>
          simp only [F64.fmax, F64.isNan, F64.flt, Bool.false_eq_true,
            if_false, decide_eq_true_eq]
          split_ifs with h1 h2 h2
          · exact absurd h2 (lt_asymm h1)
          · rfl
          · rfl
          · rw [le_antisymm (not_lt.mp h2) (not_lt.mp h1)]

theorem fmin_comm (a b : F64) : F64.fmin a b = F64.fmin b a := by
  cases a with
  | nan => cases b <;> simp [F64.fmin, F64.isNan]
  | inf s =>
      cases b with
      | nan => simp [F64.fmin, F64.isNan]
      | inf t => cases s <;> cases t <;> simp [F64.fmin, F64.flt, F64.isNan]
      | fin q => cases s <;> simp [F64.fmin, F64.flt, F64.isNan]
  | fin a =>
      cases b with
      | nan => simp [F64.fmin, F64.isNan]
      | inf t => cases t <;> simp [F64.fmin, F64.flt, F64.isNan]
      | fin b =>
          simp only [F64.fmin, F64.isNan, F64.flt, Bool.false_eq_true,
            if_false, decide_eq_true_eq]
          split_ifs with h1 h2 h2
          · exact absurd h2 (lt_asymm h1)
          · rfl
          · rfl
          · rw [le_antisymm (not_lt.mp h1) (not_lt.mp h2)]

theorem qabs_if (q : ℚ) : (if q < 0 then -q else q) = |q| := by
  split_ifs with h
  · exact (abs_of_neg h).symm
  · exact (abs_of_nonneg (not_lt.mp h)).symm

theorem fabs_fsub_comm (a b : F64) : (F64.fsub a b).fabs =
    (F64.fsub b a).fabs := by
  cases a with
  | nan => cases b <;> rfl
  | inf s =>
      cases b with
      | nan => rfl
      | inf t => cases s <;> cases t <;> rfl
      | fin q => cases s <;> rfl
  | fin a =>
      cases b with
      | nan => rfl
      | inf t => cases t <;> rfl
      | fin b =>
          simp only [F64.fsub, F64.fabs]
          rw [qabs_if, qabs_if, abs_sub_comm]

theorem ratioMetric_comm (a b : F64) : ratioMetric a b = ratioMetric b a := by
  simp only [ratioMetric]
  rw [Bool.or_comm, fmax_comm, fmin_comm]

theorem stepPair_max_diff_line (t : F64) (line : Nat) (st : DiffState)
    (p : F64 × F64) :
    (stepPair t line st p).max_diff_line =
      if (p.1.isZero && p.2.isZero) = true then st.max_diff_line
      else if (F64.flt p.1.fabs t && F64.flt p.2.fabs t) = true then
        st.max_diff_line
      else if F64.flt st.max_abs_diff (p.1.fsub p.2).fabs = true then line
      else st.max_diff_line := by
  simp only [stepPair]
  split_ifs <;> rfl

theorem stepPair_max_ratio_line (t : F64) (line : Nat) (st : DiffState)
    (p : F64 × F64) :
    (stepPair t line st p).max_ratio_line =
      if (p.1.isZero && p.2.isZero) = true then st.max_ratio_line
      else if (F64.flt p.1.fabs t && F64.flt p.2.fabs t) = true then
        st.max_ratio_line
      else if F64.flt st.max_ratio (ratioMetric p.1 p.2) = true then line
      else st.max_ratio_line := by
  simp only [stepPair]
  split_ifs <;> rfl

/-- Agreement of the four value-independent accumulator fields between
two states (the contributing value pairs are allowed to differ, e.g. to
be swapped). -/
def stR (s s' : DiffState) : Prop :=
  s.max_abs_diff = s'.max_abs_diff ∧ s.max_diff_line = s'.max_diff_line ∧
  s.max_ratio = s'.max_ratio ∧ s.max_ratio_line = s'.max_ratio_line

theorem stepPair_swap {st st' : DiffState} (t : F64) (line : Nat)
    (a b : F64) (h : stR st st') :
    stR (stepPair t line st (a, b)) (stepPair t line st' (b, a)) := by
  obtain ⟨h1, h2, h3, h4⟩ := h
  refine ⟨?_, ?_, ?_, ?_⟩
  · rw [stepPair_max_abs_diff, stepPair_max_abs_diff]
    simp only [← h1]
    rw [Bool.and_comm (F64.isZero b) (F64.isZero a),
      Bool.and_comm (F64.flt b.fabs t) (F64.flt a.fabs t),
      fabs_fsub_comm b a]
  · rw [stepPair_max_diff_line, stepPair_max_diff_line]
    simp only [← h1, ← h2]
    rw [Bool.and_comm (F64.isZero b) (F64.isZero a),
      Bool.and_comm (F64.flt b.fabs t) (F64.flt a.fabs t),
      fabs_fsub_comm b a]
  · rw [stepPair_max_ratio, stepPair_max_ratio]
    simp only [← h3]
    rw [Bool.and_comm (F64.isZero b) (F64.isZero a),
      Bool.and_comm (F64.flt b.fabs t) (F64.flt a.fabs t),
      ratioMetric_comm b a]
  · rw [stepPair_max_ratio_line, stepPair_max_ratio_line]
    simp only [← h3, ← h4]
    rw [Bool.and_comm (F64.isZero b) (F64.isZero a),
      Bool.and_comm (F64.flt b.fabs t) (F64.flt a.fabs t),
      ratioMetric_comm b a]

theorem foldPairs_swap {ps : List (F64 × F64)} :
    ∀ {st st' : DiffState} {t : F64} {line : Nat}, stR st st' →
    stR (foldPairs t line st ps)
      (foldPairs t line st' (ps.map Prod.swap)) := by
  induction ps with
  | nil => intro st st' t line h; exact h
  | cons p rest ih =>
      intro st st' t line h
      exact ih (stepPair_swap t line p.1 p.2 h)

theorem classifyCells_swap {ps : List (String × String)} :
    ∀ {fc : List Bool} {i : Nat},
    classifyCells fc i (ps.map Prod.swap) = classifyCells fc i ps := by
  induction ps with
  | nil => intro fc i; rfl
  | cons p rest ih =>
      intro fc i
      simp only [List.map]
      cases hfc : fc.get? i with
      | none => simp only [classifyCells, hfc]
      | some b =>
          simp only [classifyCells, hfc]
          have hsw1 : (Prod.swap p).1 = p.2 := rfl
          have hsw2 : (Prod.swap p).2 = p.1 := rfl
          rw [hsw1, hsw2, Bool.and_comm (isFloatCell p.2) (isFloatCell p.1)]
          exact ih

theorem firstPassGo_swap_ok {ps : List (List String × List String)} :
    ∀ {fc : Option (List Bool)} {line : Nat} {fc' : List Bool},
    firstPassGo fc line ps = .ok fc' →
    firstPassGo fc line (ps.map Prod.swap) = .ok fc' := by
  induction ps with
  | nil => intro fc line fc' h; exact h
  | cons rp rest ih =>
      intro fc line fc' h
      simp only [firstPassGo] at h
      split_ifs at h with hlen
      cases hcl : classifyCells (fc.getD
          (List.replicate rp.1.length true)) 0 (rp.1.zip rp.2) with
      | none => rw [hcl] at h; exact absurd h (by simp)
      | some fc1 =>
          rw [hcl] at h
          simp only [List.map, firstPassGo]
          have hE : rp.1.length = rp.2.length := by omega
          rw [if_neg (by
            show ¬((Prod.swap rp).1.length ≠ (Prod.swap rp).2.length)
            simp [Prod.swap, hE])]
          have hscrut : classifyCells (fc.getD
              (List.replicate (Prod.swap rp).1.length true)) 0
              ((Prod.swap rp).1.zip (Prod.swap rp).2) = some fc1 := by
            show classifyCells (fc.getD (List.replicate rp.2.length true)) 0
              (rp.2.zip rp.1) = some fc1
            rw [← hE, ← List.zip_swap, classifyCells_swap]
            exact hcl
          rw [hscrut]
          exact ih h

theorem comparePass_swap {fc : List Bool} {pv : String → F64} {t : F64} :
    ∀ {ps : List (List String × List String)} {line : Nat}
    {st st' s1 : DiffState},
    comparePass fc pv t line ps st = .ok s1 → stR st st' →
    ∃ s2, comparePass fc pv t line (ps.map Prod.swap) st' = .ok s2 ∧
      stR s1 s2 := by
  intro ps
  induction ps with
  | nil =>
      intro line st st' s1 h hR
      simp only [comparePass] at h
      cases h
      exact ⟨st', rfl, hR⟩
  | cons rp rest ih =>
      intro line st st' s1 h hR
      rw [comparePass_cons] at h
      cases hex1 : extractCells fc pv 1 line 0 rp.1 with
      | error e1 => rw [hex1] at h; simp [Except.bind] at h
      | ok f1 =>
          rw [hex1] at h
          simp only [Except.bind] at h
          cases hex2 : extractCells fc pv 2 line 0 rp.2 with
          | error e2 => rw [hex2] at h; simp [Except.bind] at h
          | ok f2 =>
              rw [hex2] at h
              simp only [Except.bind] at h
              have hex1' : extractCells fc pv 1 line 0 (Prod.swap rp).1 =
                  .ok f2 := extractCells_file_irrelevant hex2
              have hex2' : extractCells fc pv 2 line 0 (Prod.swap rp).2 =
                  .ok f1 := extractCells_file_irrelevant hex1
              simp only [List.map, comparePass_cons, hex1', hex2',
                Except.bind]
              rw [Bool.and_comm (f2.isEmpty) (f1.isEmpty)]
              split_ifs at h with hc1 hc2
              · rw [if_pos hc1]
                exact ih h hR
              · have hc2' : ¬(f2.length ≠ f1.length) := by omega
                rw [if_neg hc1, if_neg hc2']
                have hpairs : ((f2.zip f1).map (fun q => (q.1.2, q.2.2))) =
                    (((f1.zip f2).map (fun q => (q.1.2, q.2.2))).map
                      Prod.swap) := by
                  rw [← List.zip_swap f1 f2, List.map_map, List.map_map]
                  rfl
                rw [hpairs]
                exact ih h (foldPairs_swap hR)

/-- C8: swapping the two input files yields the same final best absolute
difference and the same final best ratio on every completed run: the
skip conditions and both metrics are symmetric in the two values of a
pair, and the update rule depends only on the metric, so only the stored
value pairs swap. -/
theorem c8_swap_symmetric :
    ∀ (pv : String → F64) (t : F64) (r1 r2 : List (List String))
      (st : DiffState), run pv t r1 r2 = .ok st →
    ∃ st', run pv t r2 r1 = .ok st' ∧
      st'.max_abs_diff = st.max_abs_diff ∧
      st'.max_ratio = st.max_ratio := by
  intro pv t r1 r2 st hok
  rw [run_eq] at hok
  cases hfp : firstPass r1 r2 with
  | error e => rw [hfp] at hok; simp [Except.bind] at hok
  | ok fc =>
      rw [hfp] at hok
      simp only [Except.bind] at hok
      have hlen : r1.length = r2.length := by
        by_contra hne
        simp only [firstPass, if_pos hne] at hfp
        exact absurd hfp (by simp)
      have hgo := firstPass_ok_go hfp
      have hgo' : firstPassGo none 1 (r2.zip r1) = .ok fc := by
        rw [← List.zip_swap r1 r2]
        exact firstPassGo_swap_ok hgo
      have hfp' : firstPass r2 r1 = .ok fc := by
        simp only [firstPass, if_neg (by omega : ¬r2.length ≠ r1.length)]
        exact hgo'
      obtain ⟨s2, hs2, hR⟩ := comparePass_swap hok ⟨rfl, rfl, rfl, rfl⟩
      refine ⟨s2, ?_, hR.1.symm, hR.2.2.1.symm⟩
      rw [run_eq, hfp']
      simp only [Except.bind]
      rw [← List.zip_swap r1 r2]
      exact hs2

/-- Witness for C8: swapping a concrete completed file pair yields a run
that also completes, with identical best difference and best ratio. -/
theorem c8_witness :
    ∃ st', run (fun _ => F64.fin 1) (.fin 0) [["b"]] [["a"]] = .ok st' ∧
      st'.max_abs_diff = initState.max_abs_diff ∧
      st'.max_ratio = initState.max_ratio :=
  c8_swap_symmetric (fun _ => F64.fin 1) (.fin 0) [["a"]] [["b"]]
    initState (by decide)

end NasTools
